import Mathlib

/-!
Verification of the metrics-viz aggregation and comparison pipeline.

A shallow embedding, in Lean 4, of the Python code in
`object_detection/utils/metrics_calculator.py` and
`object_detection/utils/data_processor.py`, together with theorems settling
the testable properties of the specification.

Modelling conventions:
* Python `float` values carried through the pipeline are modelled as `ℚ`;
  the code performs only field arithmetic on them (`+ - * /`), no rounding
  is at stake in any claim.
* A Python `dict` with string keys and float values is modelled by `PyDict`,
  an association list in insertion order; `dict[k] = v` replaces in place or
  appends at the end, exactly like CPython.
* Functions that mutate an argument dictionary are modelled as returning the
  new dictionary alongside their other results.
* Exceptions are modelled with `Except`; a Python function that cannot raise
  is a total Lean function.
-/

namespace MetricsViz

/-- A Python `dict` of string keys and float values, in insertion order. -/
abbrev PyDict := List (String × ℚ)

/-- Python `d.get(k, default)` of a dict. -/
def PyDict.get (d : PyDict) (k : String) (default : ℚ) : ℚ :=
  (List.lookup k d).getD default

/-- Python `d[k] = v` of a dict: replaces the value in place when the key is
present, otherwise appends the new binding at the end. -/
def PyDict.set : PyDict → String → ℚ → PyDict
  | [], k, v => [(k, v)]
  | (k₀, v₀) :: rest, k, v =>
    if k₀ = k then (k, v) :: rest else (k₀, v₀) :: PyDict.set rest k v

/-- Embeds `MetricsCalculator.calculate_f1_score` from `metrics_calculator.py`:
`0.0` when `precision + recall == 0`, else `2*(precision*recall)/(precision+recall)`. -/
def calculate_f1_score (p r : ℚ) : ℚ :=
  if p + r = 0 then 0 else 2 * (p * r) / (p + r)

/-! ## Metric extraction (`extract_yolo_metrics`) -/

/-- The `box` attribute of the opaque metrics object returned by the external
engine.  `map50` and `map` are accessed unguarded in the source (absence raises
`AttributeError`), while `map75`, `mp` and `mr` are guarded with `hasattr`;
`none` models an absent attribute. -/
structure BoxMetrics where
  map50 : Option ℚ
  map : Option ℚ
  map75 : Option ℚ
  mp : Option ℚ
  mr : Option ℚ
  deriving DecidableEq, Repr

/-- The opaque metrics object; `box = none` models an object without a `box`
attribute, whose access raises inside the `try` block. -/
structure MetricsObj where
  box : Option BoxMetrics
  deriving DecidableEq, Repr

/-- The all-zero fallback dictionary of the `except` branch of
`extract_yolo_metrics`. -/
def yolo_zero_metrics : PyDict :=
  [("mAP@0.5", 0), ("mAP@0.5:0.95", 0), ("mAP@0.75", 0), ("precision", 0), ("recall", 0)]

/-- The `try` block of `extract_yolo_metrics`: builds the five-entry dictionary,
raising when `box`, `box.map50` or `box.map` is absent; the `hasattr`-guarded
attributes fall back to `0.0`. -/
def extract_yolo_metrics_attempt (o : MetricsObj) : Except String PyDict := do
  let b ← match o.box with
    | some b => Except.ok b
    | none => Except.error "AttributeError: box"
  let m50 ← match b.map50 with
    | some v => Except.ok v
    | none => Except.error "AttributeError: map50"
  let m ← match b.map with
    | some v => Except.ok v
    | none => Except.error "AttributeError: map"
  Except.ok [("mAP@0.5", m50), ("mAP@0.5:0.95", m), ("mAP@0.75", b.map75.getD 0),
    ("precision", b.mp.getD 0), ("recall", b.mr.getD 0)]

/-- Embeds `MetricsCalculator.extract_yolo_metrics`: the `try` block with its `except`
handler, which logs a warning and returns the all-zero vector.  Total: the
Python function never lets an exception escape. -/
def extract_yolo_metrics (o : MetricsObj) : PyDict :=
  match extract_yolo_metrics_attempt o with
  | Except.ok d => d
  | Except.error _ => yolo_zero_metrics

/-! ## Persistence and aggregation -/

/-- The parsed content of a persisted `metrics.json` file:
`{model, method, metrics}`, each entry possibly absent since
`create_comparison_table` reads them back with `result.get`. -/
structure StoredResult where
  model : Option String
  method : Option String
  metrics : Option PyDict
  deriving DecidableEq, Repr

/-- One entry of the results root as seen by `Path.iterdir` during the scan:
its name, whether it is a directory, and the parsed `metrics.json` content
(`none` when the file is absent, in which case the directory is skipped). -/
structure MethodDir where
  name : String
  isDir : Bool
  metricsJson : Option StoredResult
  deriving DecidableEq, Repr

/-- One row of the comparison `DataFrame` built by `create_comparison_table`. -/
structure Row where
  Method : String
  Model : String
  map50 : ℚ
  map : ℚ
  map75 : ℚ
  Precision : ℚ
  Recall : ℚ
  F1 : ℚ
  deriving DecidableEq, Repr

/-- The loop body of `create_comparison_table` for one scanned entry:
non-directories and directories without `metrics.json` yield no row; otherwise
the row is built from the stored dictionary with `get` defaults, with
`F1-Score` recomputed by `calculate_f1_score` from the stored precision and
recall (any stored `f1_score` entry is ignored). -/
def row_of_dir (d : MethodDir) : Option Row :=
  if d.isDir = false then none
  else
    match d.metricsJson with
    | none => none
    | some stored =>
      let m := stored.metrics.getD []
      some { Method := stored.method.getD d.name
             Model := stored.model.getD "Unknown"
             map50 := m.get "mAP@0.5" 0
             map := m.get "mAP@0.5:0.95" 0
             map75 := m.get "mAP@0.75" 0
             Precision := m.get "precision" 0
             Recall := m.get "recall" 0
             F1 := calculate_f1_score (m.get "precision" 0) (m.get "recall" 0) }

/-- Embeds `DataFrame.sort_values(col, ascending=False)` for a single column: pandas
`nargsort` first reverses the values and the index array, argsorts that
reversed column ascending, and then reverses the resulting indexer — a
double reversal whose net effect is a descending sort that keeps the
original (discovery) order of rows with equal keys whenever the argsort is
stable.  The ascending argsort is modelled as a stable sort — numpy's
introsort runs plain insertion sort (stable) on partitions of fewer than 17
elements, which covers every table this pipeline builds (one row per method
directory) and in particular every concrete instance used below. -/
def pandas_sort_desc (key : Row → ℚ) (rows : List Row) : List Row :=
  ((rows.reverse).insertionSort fun a b => key a ≤ key b).reverse

instance : IsTotal Row fun a b => a.map ≤ b.map :=
  ⟨fun a b => le_total a.map b.map⟩

instance : IsTrans Row fun a b => a.map ≤ b.map :=
  ⟨fun _ _ _ hab hbc => le_trans hab hbc⟩

/-- Embeds `MetricsCalculator.create_comparison_table`, as a function of the scan
order of the results root: collect one row per method directory holding a
`metrics.json`, then sort descending by the `mAP@0.5:0.95` column (the sort is
guarded by `if not df.empty`). -/
def create_comparison_table (dirs : List MethodDir) : List Row :=
  let data := dirs.filterMap row_of_dir
  if data.isEmpty then data
  else pandas_sort_desc (fun r => r.map) data

/-- The relative-improvement section of `print_comparison_table`: when the
table has more than one row, the last row's `mAP@0.5:0.95` is the baseline and
one `(Method, percentage)` line is printed per row whose `mAP@0.5:0.95`
differs from the baseline; rows equal to the baseline (the baseline row
itself included) print nothing.  Division is exact over `ℚ`; theorems about
the printed percentages therefore assume a non-zero baseline (with a zero
baseline the Python float division yields infinities). -/
def relative_improvement_lines (rows : List Row) : List (String × ℚ) :=
  if 1 < rows.length then
    match rows.getLast? with
    | none => []
    | some base =>
      rows.filterMap fun row =>
        if row.map ≠ base.map then
          some (row.Method, (row.map - base.map) / base.map * 100)
        else none
  else []

/-- The human-readable values written by `save_metrics_summary`. -/
structure SummaryText where
  model : String
  method : String
  map : ℚ
  map50 : ℚ
  map75 : ℚ
  Precision : ℚ
  Recall : ℚ
  F1 : ℚ
  deriving DecidableEq, Repr

/-- Embeds `MetricsCalculator.save_metrics`: computes f1 from the dictionary's
precision/recall (with `0.0` defaults), assigns `metrics['f1_score'] = f1` —
mutating the caller's dictionary — and writes `{model, method, metrics}` to
JSON.  Returns the caller's dictionary after mutation together with the
written object. -/
def save_metrics (metrics : PyDict) (method_name model_name : String) :
    PyDict × StoredResult :=
  let f1 := calculate_f1_score (metrics.get "precision" 0) (metrics.get "recall" 0)
  let metricsAfter := metrics.set "f1_score" f1
  (metricsAfter,
   { model := some model_name, method := some method_name, metrics := some metricsAfter })

/-- Embeds `MetricsCalculator.save_metrics_summary`: computes f1 into a local and
formats the dictionary's entries into the text report, without assigning into
the caller's dictionary.  Returns the caller's dictionary after the call
together with the formatted values. -/
def save_metrics_summary (metrics : PyDict) (method_name model_name : String) :
    PyDict × SummaryText :=
  let f1 := calculate_f1_score (metrics.get "precision" 0) (metrics.get "recall" 0)
  (metrics,
   { model := model_name
     method := method_name
     map := metrics.get "mAP@0.5:0.95" 0
     map50 := metrics.get "mAP@0.5" 0
     map75 := metrics.get "mAP@0.75" 0
     Precision := metrics.get "precision" 0
     Recall := metrics.get "recall" 0
     F1 := f1 })

/-! ## Dataset verification (`verify_dataset`) -/

/-- One entry of the `issues` list of a verification result.  The source
appends formatted message strings; the model keeps the message's content. -/
inductive Issue
  | imagesDirMissing
  | labelsDirMissing
  | unmatchedImages (count : ℕ)
  | unmatchedLabels (count : ℕ)
  deriving DecidableEq, Repr

/-- The result dictionary of `DataProcessor.verify_dataset`. -/
structure VerifyResult where
  method : String
  images_exist : Bool
  labels_exist : Bool
  image_count : ℕ
  label_count : ℕ
  matched_count : ℕ
  issues : List Issue
  deriving DecidableEq, Repr

/-- Embeds `DataProcessor.verify_dataset`, as a function of what the file system
holds: whether `images/{method}` exists and the stems of the image files under
it, whether `labels/val` exists and the stems of its `.txt` files.  Mirrors the
early returns of the source; the pairing section compares the two stem sets
and appends one issue per non-empty difference.  Issues are returned in the
result, never raised. -/
def verify_dataset (method : String) (imagesDirExists : Bool) (imageStems : List String)
    (labelsDirExists : Bool) (labelStems : List String) : VerifyResult :=
  let base : VerifyResult :=
    { method := method, images_exist := false, labels_exist := false,
      image_count := 0, label_count := 0, matched_count := 0, issues := [] }
  if imagesDirExists = false then { base with issues := [Issue.imagesDirMissing] }
  else
    let base := { base with images_exist := true, image_count := imageStems.length }
    if labelsDirExists = false then { base with issues := [Issue.labelsDirMissing] }
    else
      let I := imageStems.toFinset
      let L := labelStems.toFinset
      { base with
        labels_exist := true
        label_count := labelStems.length
        matched_count := (I ∩ L).card
        issues :=
          (if 0 < (I \ L).card then [Issue.unmatchedImages (I \ L).card] else []) ++
          (if 0 < (L \ I).card then [Issue.unmatchedLabels (L \ I).card] else []) }

/-! ## Dataset staging (`prepare_dataset`) -/

/-- One entry found under the source directory by `Path.rglob`. -/
structure SrcFile where
  /-- the file's full path, unique identity and symlink referent
  (`img_file.absolute()`) -/
  path : String
  /-- the base file name (`img_file.name`), the key in the flat target
  directory -/
  name : String
  /-- the file's suffix (`img_file.suffix`) -/
  suffix : String
  /-- `img_file.is_file()` -/
  isFile : Bool
  deriving DecidableEq, Repr

/-- The extension whitelist of `_get_image_files`. -/
def image_extensions : List String :=
  [".jpg", ".jpeg", ".png", ".bmp", ".tiff", ".tif"]

/-- Python `str.lower()` on one character of a file suffix (ASCII, which is all an
extension comparison against the whitelist can be sensitive to). -/
def ascii_lower (c : Char) : Char :=
  if 65 ≤ c.toNat ∧ c.toNat ≤ 90 then Char.ofNat (c.toNat + 32) else c

/-- Python `suffix.lower()` of a file suffix. -/
def string_lower (s : String) : String :=
  String.mk (s.toList.map ascii_lower)

/-- Embeds `DataProcessor._get_image_files`: keeps every entry of the recursive
listing whose lowercased suffix is an image extension and which is a regular
file. -/
def get_image_files (listing : List SrcFile) : List SrcFile :=
  listing.filter fun f => image_extensions.contains (string_lower f.suffix) && f.isFile

/-- An entry of the flat target directory `images/{method}`: a regular file
(recording which source it was copied from) or a symbolic link with its
referent path. -/
inductive Entry
  | file (copiedFrom : String)
  | symlink (target : String)
  deriving DecidableEq, Repr

/-- A Python `OSError` relevant to staging. -/
inductive PyErr
  | fileExists (path : String)
  deriving DecidableEq, Repr

/-- The slice of file-system state that `prepare_dataset` reads and writes:
the existing directory paths (`mkdir`, `source_path.exists()`), the paths of
live regular files (symlink referents resolve against these), and the
contents of the flat per-method target directory, keyed by base name. -/
structure FS where
  dirs : List String
  liveFiles : List String
  target : List (String × Entry)
  deriving DecidableEq, Repr

/-- The directory entry at `target_dir/nm`, if any. -/
def FS.entryAt (fs : FS) (nm : String) : Option Entry :=
  List.lookup nm fs.target

/-- Python `target_file.exists()`: `Path.exists` follows symbolic links, so a link
whose referent is not a live file reports `False` even though the link itself
occupies the path. -/
def FS.targetPathExists (fs : FS) (nm : String) : Bool :=
  match fs.entryAt nm with
  | none => false
  | some (Entry.file _) => true
  | some (Entry.symlink t) => fs.liveFiles.contains t

/-- Python `target_file.unlink()`. -/
def FS.removeTarget (fs : FS) (nm : String) : FS :=
  { fs with target := fs.target.filter fun p => p.1 ≠ nm }

/-- Store `e` at `target_dir/nm` (directory contents are unordered; the
association list keeps each key at most once). -/
def FS.setTarget (fs : FS) (nm : String) (e : Entry) : FS :=
  { fs with target := (nm, e) :: fs.target.filter fun p => p.1 ≠ nm }

/-- One iteration of the staging loop of `prepare_dataset`.
Copy mode: `shutil.copy2(img_file, target_file)` overwrites the entry at the
target path (the entry is absent or a regular file in every state reached
from a fresh target directory; `copy2` onto a symlink would write through the
link instead).  Link mode: `if target_file.exists(): target_file.unlink()`
then `os.symlink(img_file.absolute(), target_file)`; `os.symlink` raises
`FileExistsError` when something still occupies the target path — such as a
dangling symbolic link, which `exists()` reported as `False` so that the
`unlink` was skipped. -/
def stage_file (copyMode : Bool) (fs : FS) (f : SrcFile) : FS × Option PyErr :=
  if copyMode then (fs.setTarget f.name (Entry.file f.path), none)
  else
    let fs₂ := if fs.targetPathExists f.name then fs.removeTarget f.name else fs
    match fs₂.entryAt f.name with
    | some _ => (fs₂, some (PyErr.fileExists f.name))
    | none => (fs₂.setTarget f.name (Entry.symlink f.path), none)

/-- The staging loop over the matched files, in order; an exception stops the
loop and is not caught by `prepare_dataset`. -/
def stage_files (copyMode : Bool) : FS → List SrcFile → FS × Option PyErr
  | fs, [] => (fs, none)
  | fs, f :: rest =>
    match stage_file copyMode fs f with
    | (fs₂, none) => stage_files copyMode fs₂ rest
    | (fs₂, some e) => (fs₂, some e)

/-- Embeds `DataProcessor.prepare_dataset`: creates the target directory
`images/{method}` (with parents, `exist_ok=True`) before anything else, then
returns `False` when the source path does not exist or its listing holds no
image files, and otherwise stages every matched file.  `listing` is the
recursive directory listing `rglob` would produce for `src`.  Returns the
final file-system state paired with the boolean result, or with `none` when
an uncaught exception escaped. -/
def prepare_dataset (fs : FS) (src : String) (listing : List SrcFile)
    (method : String) (copyMode : Bool) : FS × Option Bool :=
  let targetDir := "images/" ++ method
  let fs :=
    { fs with dirs := if fs.dirs.contains targetDir then fs.dirs else targetDir :: fs.dirs }
  if fs.dirs.contains src = false then (fs, some false)
  else
    let image_files := get_image_files listing
    if image_files.isEmpty then (fs, some false)
    else
      match stage_files copyMode fs image_files with
      | (fs₂, none) => (fs₂, some true)
      | (fs₂, some _) => (fs₂, none)

/-- The target-directory entry `prepare_dataset` creates for a staged source
file: a copy in copy mode, a symbolic link to the source's path otherwise. -/
def staged_entry (copyMode : Bool) (f : SrcFile) : Entry :=
  if copyMode then Entry.file f.path else Entry.symlink f.path

/-- The last element of `files` carrying the base name `nm`: the one whose
copy or link survives in the flat target directory. -/
def last_with_name (nm : String) (files : List SrcFile) : Option SrcFile :=
  (files.filter fun f => f.name = nm).getLast?

/-- No entry of the target directory is a dangling symbolic link (every
present entry passes the `exists()` check).  Holds in particular when the
target directory is empty or when every link points at a live file. -/
def FS.noDangling (fs : FS) : Prop :=
  ∀ nm e, fs.entryAt nm = some e → fs.targetPathExists nm = true

end MetricsViz

namespace MetricsViz

/-- C2: for precision `p` and recall `r` in `[0,1]`, `calculate_f1_score` returns `0`
when `p + r = 0` and `2*p*r/(p+r)` otherwise; it is symmetric in its two
arguments; and `calculate_f1_score 1 1 = 1`. -/
theorem f1_formula_symmetric_and_unit (p r : ℚ)
    (hp0 : 0 ≤ p) (hp1 : p ≤ 1) (hr0 : 0 ≤ r) (hr1 : r ≤ 1) :
    (p + r = 0 → calculate_f1_score p r = 0) ∧
    (p + r ≠ 0 → calculate_f1_score p r = 2 * p * r / (p + r)) ∧
    calculate_f1_score p r = calculate_f1_score r p ∧
    calculate_f1_score 1 1 = 1 := by
  refine ⟨fun h => by simp [calculate_f1_score, h], fun h => ?_, ?_, by norm_num [calculate_f1_score]⟩
  · simp only [calculate_f1_score, if_neg h]
    ring
  · simp only [calculate_f1_score, add_comm r p, mul_comm r p]

/-- Witness for `f1_formula_symmetric_and_unit` at `p = 1/2`, `r = 1/4`. -/
theorem f1_formula_symmetric_and_unit_witness :
    ((1:ℚ)/2 + 1/4 = 0 → calculate_f1_score (1/2) (1/4) = 0) ∧
    ((1:ℚ)/2 + 1/4 ≠ 0 → calculate_f1_score (1/2) (1/4) = 2 * (1/2) * (1/4) / (1/2 + 1/4)) ∧
    calculate_f1_score (1/2) (1/4) = calculate_f1_score (1/4) (1/2) ∧
    calculate_f1_score 1 1 = 1 :=
  f1_formula_symmetric_and_unit (1/2) (1/4) (by norm_num) (by norm_num)
    (by norm_num) (by norm_num)

/-! ### Dictionary update lemmas -/

theorem PyDict.lookup_set_self (d : PyDict) (k : String) (v : ℚ) :
    List.lookup k (d.set k v) = some v := by
  induction d with
  | nil => simp [PyDict.set, List.lookup]
  | cons p rest ih =>
    obtain ⟨k₀, v₀⟩ := p
    by_cases h : k₀ = k
    · subst h; simp [PyDict.set, List.lookup]
    · have hb : (k == k₀) = false := beq_eq_false_iff_ne.mpr (Ne.symm h)
      simp [PyDict.set, h, List.lookup, hb, ih]

theorem PyDict.lookup_set_ne (d : PyDict) (k k' : String) (v : ℚ) (h : k' ≠ k) :
    List.lookup k' (d.set k v) = List.lookup k' d := by
  have hb : (k' == k) = false := beq_eq_false_iff_ne.mpr h
  induction d with
  | nil => simp [PyDict.set, List.lookup, hb]
  | cons p rest ih =>
    obtain ⟨k₀, v₀⟩ := p
    by_cases hk : k₀ = k
    · subst hk; simp [PyDict.set, List.lookup, hb]
    · simp only [PyDict.set, if_neg hk, List.lookup, ih]

theorem PyDict.get_set_ne (d : PyDict) (k k' : String) (v dflt : ℚ) (h : k' ≠ k) :
    (d.set k v).get k' dflt = d.get k' dflt := by
  simp [PyDict.get, PyDict.lookup_set_ne d k k' v h]

/-! ### C8 — `save_metrics` mutates only the `f1_score` entry -/

/-- C8: `save_metrics` mutates the caller's dictionary: afterwards it maps
`f1_score` to `calculate_f1_score` of its `precision` and `recall` entries
(`0.0` defaults when absent) and no other key's binding is changed, while
`save_metrics_summary` returns the caller's dictionary unmodified. -/
theorem save_metrics_mutates_only_f1 (metrics : PyDict) (mn mo : String) :
    List.lookup "f1_score" (save_metrics metrics mn mo).1 =
      some (calculate_f1_score (metrics.get "precision" 0) (metrics.get "recall" 0)) ∧
    (∀ k : String, k ≠ "f1_score" →
      List.lookup k (save_metrics metrics mn mo).1 = List.lookup k metrics) ∧
    (save_metrics_summary metrics mn mo).1 = metrics := by
  refine ⟨?_, fun k hk => ?_, rfl⟩
  · simp [save_metrics, PyDict.lookup_set_self]
  · simp [save_metrics, PyDict.lookup_set_ne _ _ _ _ hk]

/-- Witness for `save_metrics_mutates_only_f1` on a concrete dictionary and
the key `precision`. -/
theorem save_metrics_mutates_only_f1_witness :
    List.lookup "f1_score" (save_metrics [("precision", 1/2), ("recall", 1/2)] "raw" "yolo").1 =
      some (calculate_f1_score (PyDict.get [("precision", 1/2), ("recall", 1/2)] "precision" 0)
        (PyDict.get [("precision", 1/2), ("recall", 1/2)] "recall" 0)) ∧
    List.lookup "precision" (save_metrics [("precision", 1/2), ("recall", 1/2)] "raw" "yolo").1 =
      List.lookup "precision" [("precision", (1:ℚ)/2), ("recall", 1/2)] ∧
    (save_metrics_summary [("precision", (1:ℚ)/2), ("recall", 1/2)] "raw" "yolo").1 =
      [("precision", 1/2), ("recall", 1/2)] :=
  ⟨(save_metrics_mutates_only_f1 [("precision", 1/2), ("recall", 1/2)] "raw" "yolo").1,
   (save_metrics_mutates_only_f1 [("precision", 1/2), ("recall", 1/2)] "raw" "yolo").2.1
     "precision" (by decide),
   (save_metrics_mutates_only_f1 [("precision", 1/2), ("recall", 1/2)] "raw" "yolo").2.2⟩

/-! ### C6 — round-trip recomputes F1 from stored precision/recall -/

/-- C6: persisting a metrics dictionary with `save_metrics` and rebuilding the
table row from the written file yields an `F1-Score` equal to
`calculate_f1_score` of the dictionary's precision and recall; more generally
the row built from any stored file recomputes F1 from the stored precision
and recall, so a stored `f1_score` entry — whatever its value — is never
copied into the table. -/
theorem roundtrip_f1_recomputed_not_copied :
    (∀ (metrics : PyDict) (mn mo dn : String),
      (row_of_dir { name := dn, isDir := true,
                    metricsJson := some (save_metrics metrics mn mo).2 }).map Row.F1 =
        some (calculate_f1_score (metrics.get "precision" 0) (metrics.get "recall" 0))) ∧
    (∀ (m : PyDict) (mo me : Option String) (dn : String),
      (row_of_dir { name := dn, isDir := true,
                    metricsJson := some { model := mo, method := me,
                                          metrics := some m } }).map Row.F1 =
        some (calculate_f1_score (m.get "precision" 0) (m.get "recall" 0))) := by
  constructor
  · intro metrics mn mo dn
    simp [row_of_dir, save_metrics, PyDict.get_set_ne _ _ _ _ _ (by decide : "precision" ≠ "f1_score"),
      PyDict.get_set_ne _ _ _ _ _ (by decide : "recall" ≠ "f1_score")]
  · intro m mo me dn
    simp [row_of_dir]

/-! ### C5 — extraction is total, defaults missing attributes to zero -/

/-- C5: `extract_yolo_metrics` is a total function (the Python code catches
every exception); for every input object the result carries exactly the five
keys `mAP@0.5`, `mAP@0.5:0.95`, `mAP@0.75`, `precision`, `recall` in order;
an absent `hasattr`-guarded attribute (`map75`, `mp`, `mr`) contributes `0.0`;
and whenever the `try` block raises — `box`, `box.map50` or `box.map`
missing — the result is the all-zero vector (with a logged warning). -/
theorem extract_never_raises_and_defaults (o : MetricsObj) :
    (extract_yolo_metrics o).map Prod.fst =
      ["mAP@0.5", "mAP@0.5:0.95", "mAP@0.75", "precision", "recall"] ∧
    (∀ b, o.box = some b →
      (b.map75 = none → (extract_yolo_metrics o).get "mAP@0.75" 0 = 0) ∧
      (b.mp = none → (extract_yolo_metrics o).get "precision" 0 = 0) ∧
      (b.mr = none → (extract_yolo_metrics o).get "recall" 0 = 0)) ∧
    ((o.box = none ∨ ∃ b, o.box = some b ∧ (b.map50 = none ∨ b.map = none)) →
      extract_yolo_metrics o = yolo_zero_metrics) := by
  obtain ⟨bx⟩ := o
  cases bx with
  | none =>
    refine ⟨rfl, ?_, fun _ => rfl⟩
    intro b hb
    cases hb
  | some b =>
    obtain ⟨m50, m, m75, mp, mr⟩ := b
    cases m50 with
    | none =>
      refine ⟨rfl, ?_, fun _ => rfl⟩
      intro b hb
      obtain rfl := Option.some.inj hb
      refine ⟨fun _ => rfl, fun _ => rfl, fun _ => rfl⟩
    | some v50 =>
      cases m with
      | none =>
        refine ⟨rfl, ?_, fun _ => rfl⟩
        intro b hb
        obtain rfl := Option.some.inj hb
        refine ⟨fun _ => rfl, fun _ => rfl, fun _ => rfl⟩
      | some vm =>
        refine ⟨rfl, ?_, ?_⟩
        · intro b hb
          obtain rfl := Option.some.inj hb
          refine ⟨fun h75 => ?_, fun hmp => ?_, fun hmr => ?_⟩
          · subst h75; rfl
          · subst hmp; rfl
          · subst hmr; rfl
        · rintro (h | ⟨b, hb, h | h⟩)
          · cases h
          · obtain rfl := Option.some.inj hb; cases h
          · obtain rfl := Option.some.inj hb; cases h

/-- Witness for `extract_never_raises_and_defaults` at an object whose `box`
has `map50` but lacks `map`, `map75`, `mp` and `mr`: the `try` block raises,
the result is the all-zero five-key vector. -/
theorem extract_never_raises_and_defaults_witness :
    (extract_yolo_metrics
        { box := some { map50 := some 1, map := none, map75 := none,
                        mp := some (1/2), mr := none } }).map Prod.fst =
      ["mAP@0.5", "mAP@0.5:0.95", "mAP@0.75", "precision", "recall"] ∧
    (extract_yolo_metrics
        { box := some { map50 := some 1, map := none, map75 := none,
                        mp := some (1/2), mr := none } }).get "mAP@0.75" 0 = 0 ∧
    extract_yolo_metrics
        { box := some { map50 := some 1, map := none, map75 := none,
                        mp := some (1/2), mr := none } } = yolo_zero_metrics := by
  have h := extract_never_raises_and_defaults
    { box := some { map50 := some 1, map := none, map75 := none,
                    mp := some (1/2), mr := none } }
  exact ⟨h.1, (h.2.1 _ rfl).1 rfl,
    h.2.2 (Or.inr ⟨_, rfl, Or.inr rfl⟩)⟩

/-! ### C3 — relative-improvement baseline -/

/-- C3 counterexample: on the two-row table with `mAP@0.5:0.95` values `3/5`
and `3/10` (sorted descending), the improvement report holds exactly one line,
`+100%` for the first row; the baseline (last) row reports no `0%` line for
itself — contradicting the claim that it reports a 0% delta. -/
theorem baseline_reports_no_zero_delta_counterexample :
    relative_improvement_lines
        [⟨"A", "m", 0, 3/5, 0, 0, 0, 0⟩, ⟨"B", "m", 0, 3/10, 0, 0, 0, 0⟩] =
      [("A", 100)] ∧
    ("B", (0:ℚ)) ∉ relative_improvement_lines
        [⟨"A", "m", 0, 3/5, 0, 0, 0, 0⟩, ⟨"B", "m", 0, 3/10, 0, 0, 0, 0⟩] := by
  constructor
  · with_unfolding_all rfl
  · with_unfolding_all decide

/-- C3 as amended: in a table with more than one row sorted descending by
`mAP@0.5:0.95` whose last row has a non-zero value `b`, no `0%` line is
printed at all (the baseline row is skipped, as is any row tied with it);
every row whose value differs from `b` gets a line with delta
`(value - b)/b*100`, so `b` is the denominator of every printed delta; and a
row whose value is exactly `2*b` reports exactly `+100%`. -/
theorem baseline_last_row_skipped_and_denominator (rows : List Row) (base : Row)
    (hlen : 1 < rows.length) (hlast : rows.getLast? = some base)
    (hsorted : rows.Sorted fun a b => b.map ≤ a.map) (hb : base.map ≠ 0) :
    (∀ s : String, (s, (0:ℚ)) ∉ relative_improvement_lines rows) ∧
    (∀ row ∈ rows, row.map ≠ base.map →
      (row.Method, (row.map - base.map) / base.map * 100) ∈ relative_improvement_lines rows) ∧
    (∀ row ∈ rows, row.map = 2 * base.map →
      (row.Method, (100:ℚ)) ∈ relative_improvement_lines rows) := by
  have hE : relative_improvement_lines rows =
      rows.filterMap (fun row =>
        if row.map ≠ base.map then
          some (row.Method, (row.map - base.map) / base.map * 100)
        else none) := by
    simp only [relative_improvement_lines, if_pos hlen, hlast]
  have hmem : ∀ row ∈ rows, row.map ≠ base.map →
      (row.Method, (row.map - base.map) / base.map * 100) ∈ relative_improvement_lines rows := by
    intro row hrow hne
    rw [hE]
    exact List.mem_filterMap.mpr ⟨row, hrow, by simp [hne]⟩
  refine ⟨?_, hmem, ?_⟩
  · intro s hs
    rw [hE] at hs
    obtain ⟨row, _, heq⟩ := List.mem_filterMap.mp hs
    by_cases hne : row.map ≠ base.map
    · rw [if_pos hne, Option.some.injEq, Prod.mk.injEq] at heq
      have hzero : (row.map - base.map) / base.map * 100 = 0 := heq.2
      rcases mul_eq_zero.mp hzero with hdiv | h100
      · rcases div_eq_zero_iff.mp hdiv with hsub | hbase
        · exact hne (sub_eq_zero.mp hsub)
        · exact hb hbase
      · norm_num at h100
    · rw [if_neg hne] at heq
      cases heq
  · intro row hrow h2
    have hne : row.map ≠ base.map := by
      rw [h2]
      intro hcontra
      apply hb
      linarith
    have hval : (row.map - base.map) / base.map * 100 = 100 := by
      rw [h2]
      field_simp
      ring
    have := hmem row hrow hne
    rwa [hval] at this

/-- Witness for `baseline_last_row_skipped_and_denominator` on the concrete
two-row table with values `3/5` and `3/10`. -/
theorem baseline_last_row_skipped_and_denominator_witness :
    (∀ s : String, (s, (0:ℚ)) ∉ relative_improvement_lines
        [⟨"A", "m", 0, 3/5, 0, 0, 0, 0⟩, ⟨"B", "m", 0, 3/10, 0, 0, 0, 0⟩]) ∧
    ("A", (100:ℚ)) ∈ relative_improvement_lines
        [⟨"A", "m", 0, 3/5, 0, 0, 0, 0⟩, ⟨"B", "m", 0, 3/10, 0, 0, 0, 0⟩] := by
  have h := baseline_last_row_skipped_and_denominator
    [⟨"A", "m", 0, 3/5, 0, 0, 0, 0⟩, ⟨"B", "m", 0, 3/10, 0, 0, 0, 0⟩]
    ⟨"B", "m", 0, 3/10, 0, 0, 0, 0⟩
    (by decide) (by with_unfolding_all decide) (by with_unfolding_all decide)
    (by with_unfolding_all decide)
  exact ⟨h.1, h.2.2 ⟨"A", "m", 0, 3/5, 0, 0, 0, 0⟩ (by with_unfolding_all decide)
    (by with_unfolding_all decide)⟩

/-! ### C7 — pairing report -/

/-- C7: when both directories exist, `verify_dataset` reports `matched_count`
equal to the cardinality of the intersection of the image-stem and label-stem
sets; its issue list holds an unmatched-image entry exactly when some stems
occur only among images, counting them, and an unmatched-label entry exactly
when some stems occur only among labels, counting those; on image stems
`{a,b,c}` and label stems `{b,c,d}` this gives `matched_count = 2`, one
unmatched image and one unmatched label, returned as issues of the result
(the function reports them, it does not raise). -/
theorem verify_dataset_pairing_counts (method : String) (imgs lbls : List String) :
    (verify_dataset method true imgs true lbls).matched_count =
      (imgs.toFinset ∩ lbls.toFinset).card ∧
    (∀ n, Issue.unmatchedImages n ∈ (verify_dataset method true imgs true lbls).issues ↔
      n = (imgs.toFinset \ lbls.toFinset).card ∧ 0 < n) ∧
    (∀ n, Issue.unmatchedLabels n ∈ (verify_dataset method true imgs true lbls).issues ↔
      n = (lbls.toFinset \ imgs.toFinset).card ∧ 0 < n) ∧
    verify_dataset "raw" true ["a", "b", "c"] true ["b", "c", "d"] =
      { method := "raw", images_exist := true, labels_exist := true,
        image_count := 3, label_count := 3, matched_count := 2,
        issues := [Issue.unmatchedImages 1, Issue.unmatchedLabels 1] } := by
  refine ⟨rfl, ?_, ?_, by decide⟩
  · intro n
    by_cases h1 : 0 < (imgs.toFinset \ lbls.toFinset).card <;>
      by_cases h2 : 0 < (lbls.toFinset \ imgs.toFinset).card <;>
        simp [verify_dataset, h1, h2] <;> aesop
  · intro n
    by_cases h1 : 0 < (imgs.toFinset \ lbls.toFinset).card <;>
      by_cases h2 : 0 < (lbls.toFinset \ imgs.toFinset).card <;>
        simp [verify_dataset, h1, h2] <;> aesop

/-! ### C1 — aggregation sort order -/

/-- Any two tied rows that occur in discovery order among the scanned rows
still occur in that order in the sorted table: the pair survives as a
sublist.  Stability of the ascending insertion sort on the reversed row list
turns into stability of the descending sort on the original order. -/
theorem pair_sublist_comparison_table (dirs : List MethodDir) (r₁ r₂ : Row)
    (hsub : [r₁, r₂].Sublist (dirs.filterMap row_of_dir)) (heq : r₁.map = r₂.map) :
    [r₁, r₂].Sublist (create_comparison_table dirs) := by
  have hne : (dirs.filterMap row_of_dir).isEmpty = false := by
    cases hl : dirs.filterMap row_of_dir with
    | nil =>
      rw [hl] at hsub
      exact absurd (List.sublist_nil.mp hsub) (by simp)
    | cons x xs => rfl
  simp only [create_comparison_table, hne, Bool.false_eq_true, if_false, pandas_sort_desc]
  have hrev : [r₂, r₁].Sublist (dirs.filterMap row_of_dir).reverse := by
    have := hsub.reverse
    simpa using this
  have hstable : [r₂, r₁].Sublist
      (((dirs.filterMap row_of_dir).reverse).insertionSort fun a b => a.map ≤ b.map) :=
    List.pair_sublist_insertionSort (le_of_eq heq.symm) hrev
  simpa using hstable.reverse

/-- C1: the table built by `create_comparison_table` is sorted descending by
the `mAP@0.5:0.95` column, and two rows with equal values appear in the same
relative order in which their directories were discovered during the scan:
whenever `d₁` is discovered before `d₂` and their rows tie, the pair
`[row d₁, row d₂]` is a sublist of the table.  (pandas reverses the column
and the index before the stable ascending argsort and reverses the indexer
afterwards, so ties keep discovery order.) -/
theorem comparison_table_sorted_desc_ties_discovery_order :
    (∀ dirs : List MethodDir,
      (create_comparison_table dirs).Sorted fun a b => b.map ≤ a.map) ∧
    (∀ (l₁ l₂ l₃ : List MethodDir) (d₁ d₂ : MethodDir) (r₁ r₂ : Row),
      row_of_dir d₁ = some r₁ → row_of_dir d₂ = some r₂ → r₁.map = r₂.map →
      [r₁, r₂].Sublist (create_comparison_table (l₁ ++ d₁ :: (l₂ ++ d₂ :: l₃)))) := by
  constructor
  · intro dirs
    by_cases h : (dirs.filterMap row_of_dir).isEmpty
    · simp only [create_comparison_table, if_pos h]
      rw [List.isEmpty_iff] at h
      rw [h]
      exact List.sorted_nil
    · simp only [create_comparison_table, if_neg h, pandas_sort_desc]
      rw [List.Sorted, List.pairwise_reverse]
      exact List.sorted_insertionSort (fun a b : Row => a.map ≤ b.map) _
  · intro l₁ l₂ l₃ d₁ d₂ r₁ r₂ h₁ h₂ heq
    apply pair_sublist_comparison_table _ _ _ _ heq
    simp only [List.filterMap_append, List.filterMap_cons, h₁, h₂]
    refine List.Sublist.trans ?_ (List.sublist_append_right _ _)
    refine List.Sublist.cons₂ r₁ ?_
    exact List.Sublist.trans (List.Sublist.cons₂ r₂ (List.nil_sublist _))
      (List.sublist_append_right _ _)

/-- Witness for `comparison_table_sorted_desc_ties_discovery_order` on two
concrete tied directories discovered as `C` then `D`: the table is sorted
and lists the tied rows in discovery order. -/
theorem comparison_table_sorted_desc_ties_discovery_order_witness :
    (create_comparison_table
        [⟨"alpha", true, some ⟨some "yolo", some "C", some [("mAP@0.5:0.95", 1)]⟩⟩,
         ⟨"beta", true, some ⟨some "yolo", some "D", some [("mAP@0.5:0.95", 1)]⟩⟩]).Sorted
      (fun a b => b.map ≤ a.map) ∧
    [(⟨"C", "yolo", 0, 1, 0, 0, 0, 0⟩ : Row), ⟨"D", "yolo", 0, 1, 0, 0, 0, 0⟩].Sublist
      (create_comparison_table
        [⟨"alpha", true, some ⟨some "yolo", some "C", some [("mAP@0.5:0.95", 1)]⟩⟩,
         ⟨"beta", true, some ⟨some "yolo", some "D", some [("mAP@0.5:0.95", 1)]⟩⟩]) :=
  ⟨comparison_table_sorted_desc_ties_discovery_order.1 _,
   comparison_table_sorted_desc_ties_discovery_order.2 [] [] []
     ⟨"alpha", true, some ⟨some "yolo", some "C", some [("mAP@0.5:0.95", 1)]⟩⟩
     ⟨"beta", true, some ⟨some "yolo", some "D", some [("mAP@0.5:0.95", 1)]⟩⟩
     ⟨"C", "yolo", 0, 1, 0, 0, 0, 0⟩ ⟨"D", "yolo", 0, 1, 0, 0, 0, 0⟩
     (by with_unfolding_all decide) (by with_unfolding_all decide)
     (by with_unfolding_all decide)⟩

/-! ### Staging lemmas -/

theorem stage_file_preserves (cm : Bool) (fs : FS) (f : SrcFile) :
    (stage_file cm fs f).1.dirs = fs.dirs ∧ (stage_file cm fs f).1.liveFiles = fs.liveFiles := by
  unfold stage_file
  split
  · exact ⟨rfl, rfl⟩
  · split
    · dsimp only
      cases hm : (fs.removeTarget f.name).entryAt f.name <;>
        simp [hm, FS.setTarget, FS.removeTarget]
    · dsimp only
      cases hm : fs.entryAt f.name <;> simp [hm, FS.setTarget]

theorem stage_files_preserves (cm : Bool) :
    ∀ (files : List SrcFile) (fs : FS),
      (stage_files cm fs files).1.dirs = fs.dirs ∧
      (stage_files cm fs files).1.liveFiles = fs.liveFiles := by
  intro files
  induction files with
  | nil => intro fs; exact ⟨rfl, rfl⟩
  | cons f rest ih =>
    intro fs
    have hp := stage_file_preserves cm fs f
    unfold stage_files
    cases hsf : stage_file cm fs f with
    | mk fs₂ e =>
      rw [hsf] at hp
      cases e with
      | none =>
        have hr := ih fs₂
        exact ⟨hr.1.trans hp.1, hr.2.trans hp.2⟩
      | some err => exact hp

theorem prepare_dataset_dirs (fs : FS) (src : String) (listing : List SrcFile)
    (method : String) (cm : Bool) :
    (prepare_dataset fs src listing method cm).1.dirs =
      (if fs.dirs.contains ("images/" ++ method) = true then fs.dirs
       else ("images/" ++ method) :: fs.dirs) := by
  simp only [prepare_dataset]
  generalize (if fs.dirs.contains ("images/" ++ method) = true then fs.dirs
      else ("images/" ++ method) :: fs.dirs) = ds
  split_ifs with h1 h2
  · rfl
  · rfl
  · cases hst : stage_files cm { fs with dirs := ds } (get_image_files listing) with
    | mk fs₂ e =>
      have hp := (stage_files_preserves cm (get_image_files listing) { fs with dirs := ds }).1
      rw [hst] at hp
      cases e <;> simpa using hp

/-! ### C9 — the target directory is created even on the failure paths -/

/-- C9: `prepare_dataset` runs `mkdir` on `images/{method}` before checking
the source, so the target directory exists in the post-state of every call —
in particular of each call that returns `False`; and the call does return
`False` when the source path does not exist, or when the listing holds no
image file.  (The side condition `src ≠ images/{method}` excludes the corner
where the `mkdir` itself creates the source path.) -/
theorem prepare_dataset_failure_still_creates_target_dir
    (fs : FS) (src : String) (listing : List SrcFile) (method : String) (cm : Bool) :
    ("images/" ++ method) ∈ (prepare_dataset fs src listing method cm).1.dirs ∧
    (fs.dirs.contains src = false → src ≠ "images/" ++ method →
      (prepare_dataset fs src listing method cm).2 = some false) ∧
    (get_image_files listing = [] →
      (prepare_dataset fs src listing method cm).2 = some false) := by
  refine ⟨?_, ?_, ?_⟩
  · rw [prepare_dataset_dirs]
    split
    · next hc => exact List.mem_of_elem_eq_true hc
    · exact List.mem_cons_self _ _
  · intro h hne
    have hc : (if fs.dirs.contains ("images/" ++ method) = true then fs.dirs
        else ("images/" ++ method) :: fs.dirs).contains src = false := by
      split
      · exact h
      · simp only [List.contains_cons, h, Bool.or_false]
        exact beq_eq_false_iff_ne.mpr hne
    simp only [prepare_dataset]
    rw [if_pos hc]
  · intro h
    simp only [prepare_dataset]
    split_ifs <;>
      first
        | rfl
        | (exfalso; rename_i hne; exact hne (by simp [h]))

/-- Witness for `prepare_dataset_failure_still_creates_target_dir`: on an
empty file system the call for a missing source returns `False`, yet the
target directory `images/raw` exists afterwards. -/
theorem prepare_dataset_failure_still_creates_target_dir_witness :
    "images/raw" ∈ (prepare_dataset ⟨[], [], []⟩ "nosrc" [] "raw" false).1.dirs ∧
    (prepare_dataset ⟨[], [], []⟩ "nosrc" [] "raw" false).2 = some false ∧
    (prepare_dataset ⟨[], [], []⟩ "nosrc" [] "raw" false).2 = some false :=
  ⟨(prepare_dataset_failure_still_creates_target_dir ⟨[], [], []⟩ "nosrc" [] "raw" false).1,
   (prepare_dataset_failure_still_creates_target_dir ⟨[], [], []⟩ "nosrc" [] "raw" false).2.1
     (by decide) (by decide),
   (prepare_dataset_failure_still_creates_target_dir ⟨[], [], []⟩ "nosrc" [] "raw" false).2.2
     (by decide)⟩

/-! ### C4 — symlink staging and dangling links -/

/-- C4: the removal guard of symbolic-link mode is `target_file.exists()`,
which follows symlinks.  On a target directory holding a dangling link
`img.jpg → gone/img.jpg`, re-staging a live source `srcdir/img.jpg` does not
remove the pre-existing link: `exists()` is `False`, the `unlink` is skipped,
and `os.symlink` raises an uncaught `FileExistsError` (result `none`),
leaving the dangling link in place — the code does not remove *any*
pre-existing link as the claim states, and the spec's stated purpose of the
removal (avoiding dangling links) is exactly the case it misses. -/
theorem symlink_mode_dangling_link_uncaught_error :
    prepare_dataset
        ⟨["srcdir"], ["srcdir/img.jpg"], [("img.jpg", Entry.symlink "gone/img.jpg")]⟩
        "srcdir" [⟨"srcdir/img.jpg", "img.jpg", ".jpg", true⟩] "pwgcm" false =
      (⟨["images/pwgcm", "srcdir"], ["srcdir/img.jpg"],
        [("img.jpg", Entry.symlink "gone/img.jpg")]⟩, none) := by
  rfl

/-! ### Target-directory lemmas for C10 -/

theorem lookup_filter_key_ne {β : Type} (l : List (String × β)) (nm k : String) (h : k ≠ nm) :
    List.lookup k (l.filter fun p => p.1 ≠ nm) = List.lookup k l := by
  induction l with
  | nil => rfl
  | cons p rest ih =>
    obtain ⟨k₀, v₀⟩ := p
    by_cases hp : k₀ = nm
    · have hb : (k == k₀) = false := beq_eq_false_iff_ne.mpr (fun he => h (he.trans hp))
      rw [List.filter_cons, if_neg (by simp [hp]), ih]
      simp only [List.lookup, hb]
    · rw [List.filter_cons, if_pos (by simp [hp])]
      simp only [List.lookup, ih]

theorem lookup_filter_key_self {β : Type} (l : List (String × β)) (nm : String) :
    List.lookup nm (l.filter fun p => p.1 ≠ nm) = none := by
  induction l with
  | nil => rfl
  | cons p rest ih =>
    obtain ⟨k₀, v₀⟩ := p
    by_cases hp : k₀ = nm
    · rw [List.filter_cons, if_neg (by simp [hp])]
      exact ih
    · have hb : (nm == k₀) = false := beq_eq_false_iff_ne.mpr fun he => hp he.symm
      rw [List.filter_cons, if_pos (by simp [hp])]
      simp only [List.lookup, hb, ih]

theorem FS.entryAt_setTarget_self (fs : FS) (nm : String) (e : Entry) :
    (fs.setTarget nm e).entryAt nm = some e := by
  simp [FS.entryAt, FS.setTarget, List.lookup]

theorem FS.entryAt_setTarget_ne (fs : FS) (nm k : String) (e : Entry) (h : k ≠ nm) :
    (fs.setTarget nm e).entryAt k = fs.entryAt k := by
  have hb : (k == nm) = false := beq_eq_false_iff_ne.mpr h
  simp only [FS.entryAt, FS.setTarget, List.lookup, hb]
  exact lookup_filter_key_ne fs.target nm k h

theorem FS.entryAt_removeTarget_self (fs : FS) (nm : String) :
    (fs.removeTarget nm).entryAt nm = none := by
  simp only [FS.entryAt, FS.removeTarget]
  exact lookup_filter_key_self fs.target nm

theorem setTarget_removeTarget (fs : FS) (nm : String) (e : Entry) :
    (fs.removeTarget nm).setTarget nm e = fs.setTarget nm e := by
  simp [FS.removeTarget, FS.setTarget, List.filter_filter]

theorem targetPathExists_congr (fs₁ fs₂ : FS) (nm : String)
    (h1 : fs₁.entryAt nm = fs₂.entryAt nm) (h2 : fs₁.liveFiles = fs₂.liveFiles) :
    fs₁.targetPathExists nm = fs₂.targetPathExists nm := by
  simp only [FS.targetPathExists, h1, h2]

theorem map_fst_filter_ne {β : Type} (t : List (String × β)) (nm : String) :
    ((t.filter fun p => p.1 ≠ nm).map Prod.fst) = (t.map Prod.fst).filter fun k => k ≠ nm := by
  induction t with
  | nil => rfl
  | cons p rest ih =>
    obtain ⟨k₀, v₀⟩ := p
    by_cases h : k₀ = nm
    · rw [List.filter_cons, if_neg (by simp [h]), ih, List.map_cons, List.filter_cons,
        if_neg (by simp [h])]
    · rw [List.filter_cons, if_pos (by simp [h]), List.map_cons, List.map_cons,
        List.filter_cons, if_pos (by simp [h]), ih]

theorem keys_setTarget (fs : FS) (nm : String) (e : Entry) :
    ((fs.setTarget nm e).target.map Prod.fst) =
      nm :: ((fs.target.map Prod.fst).filter fun k => k ≠ nm) := by
  simp only [FS.setTarget, List.map_cons]
  rw [map_fst_filter_ne]

theorem nodup_keys_setTarget (fs : FS) (nm : String) (e : Entry)
    (h : (fs.target.map Prod.fst).Nodup) :
    ((fs.setTarget nm e).target.map Prod.fst).Nodup := by
  rw [keys_setTarget]
  refine List.Nodup.cons ?_ (h.filter _)
  intro hmem
  have := (List.mem_filter.mp hmem).2
  simp at this

theorem toFinset_keys_setTarget (fs : FS) (nm : String) (e : Entry) :
    ((fs.setTarget nm e).target.map Prod.fst).toFinset =
      insert nm ((fs.target.map Prod.fst).toFinset) := by
  rw [keys_setTarget]
  ext k
  by_cases hk : k = nm <;> simp [hk]

theorem last_with_name_cons (nm : String) (f : SrcFile) (rest : List SrcFile) :
    last_with_name nm (f :: rest) =
      match last_with_name nm rest with
      | some g => some g
      | none => if f.name = nm then some f else none := by
  unfold last_with_name
  by_cases h : f.name = nm
  · simp only [List.filter_cons, decide_eq_true_eq]
    rw [if_pos h]
    cases hl : rest.filter (fun g => decide (g.name = nm)) with
    | nil => simp [h]
    | cons x xs =>
      rw [List.getLast?_cons_cons]
      cases hrest : (x :: xs).getLast? with
      | none => simp at hrest
      | some g => rfl
  · simp only [List.filter_cons, decide_eq_true_eq]
    rw [if_neg h]
    cases hrest : (rest.filter fun g => decide (g.name = nm)).getLast? with
    | none => simp [h]
    | some g => rfl

/-- One staging step succeeds — producing the copied file or the fresh link —
whenever the entry at the target path is absent or passes the `exists()`
check (equivalently: is not a dangling link). -/
theorem stage_file_success (cm : Bool) (fs : FS) (f : SrcFile)
    (h : cm = false → fs.entryAt f.name = none ∨ fs.targetPathExists f.name = true) :
    stage_file cm fs f = (fs.setTarget f.name (staged_entry cm f), none) := by
  cases cm with
  | true => rfl
  | false =>
    rcases h rfl with hnone | hex
    · have hpe : fs.targetPathExists f.name = false := by
        simp [FS.targetPathExists, hnone]
      simp [stage_file, hpe, hnone, staged_entry]
    · simp [stage_file, hex, FS.entryAt_removeTarget_self, setTarget_removeTarget, staged_entry]

/-- The staging loop, run from a state with no dangling target entry and (in
link mode) with every file's path live, never raises; it stages the files one
per base name, the last file with a given name winning; it keeps the target
keys duplicate-free; and the final key set is the set of staged names united
with the initial keys. -/
theorem stage_files_spec (cm : Bool) :
    ∀ (files : List SrcFile) (fs : FS),
      fs.noDangling →
      (fs.target.map Prod.fst).Nodup →
      (cm = false → ∀ f ∈ files, f.path ∈ fs.liveFiles) →
      (stage_files cm fs files).2 = none ∧
      (∀ nm, (stage_files cm fs files).1.entryAt nm =
        match last_with_name nm files with
        | some f => some (staged_entry cm f)
        | none => fs.entryAt nm) ∧
      ((stage_files cm fs files).1.target.map Prod.fst).Nodup ∧
      ((stage_files cm fs files).1.target.map Prod.fst).toFinset =
        (files.map SrcFile.name).toFinset ∪ (fs.target.map Prod.fst).toFinset := by
  intro files
  induction files with
  | nil =>
    intro fs _ hnodup _
    refine ⟨rfl, fun nm => ?_, hnodup, by simp [stage_files]⟩
    simp [stage_files, last_with_name]
  | cons f rest ih =>
    intro fs hnd hnodup hlive
    have hcond : cm = false → fs.entryAt f.name = none ∨ fs.targetPathExists f.name = true := by
      intro _
      cases he : fs.entryAt f.name with
      | none => exact Or.inl rfl
      | some e => exact Or.inr (hnd f.name e he)
    have hstep := stage_file_success cm fs f hcond
    have hlive₃ : cm = false → f.path ∈ fs.liveFiles :=
      fun hcm => hlive hcm f (List.mem_cons_self f rest)
    have hunf : stage_files cm fs (f :: rest) =
        stage_files cm (fs.setTarget f.name (staged_entry cm f)) rest := by
      rw [stage_files, hstep]
    have hnd₃ : (fs.setTarget f.name (staged_entry cm f)).noDangling := by
      intro nm e he
      by_cases hk : nm = f.name
      · subst hk
        rw [FS.entryAt_setTarget_self] at he
        cases cm with
        | true =>
          simp [FS.targetPathExists, FS.entryAt_setTarget_self, staged_entry]
        | false =>
          simp only [FS.targetPathExists, FS.entryAt_setTarget_self, staged_entry,
            Bool.false_eq_true, if_false]
          exact List.elem_eq_true_of_mem (hlive₃ rfl)
      · rw [targetPathExists_congr (fs.setTarget f.name (staged_entry cm f)) fs nm
          (FS.entryAt_setTarget_ne fs f.name nm (staged_entry cm f) hk) rfl]
        rw [FS.entryAt_setTarget_ne fs f.name nm (staged_entry cm f) hk] at he
        exact hnd nm e he
    have hnodup₃ := nodup_keys_setTarget fs f.name (staged_entry cm f) hnodup
    have hlive' : cm = false →
        ∀ g ∈ rest, g.path ∈ (fs.setTarget f.name (staged_entry cm f)).liveFiles :=
      fun hcm g hg => hlive hcm g (List.mem_cons_of_mem f hg)
    obtain ⟨h1, h2, h3, h4⟩ := ih (fs.setTarget f.name (staged_entry cm f)) hnd₃ hnodup₃ hlive'
    rw [hunf]
    refine ⟨h1, fun nm => ?_, h3, ?_⟩
    · rw [h2 nm, last_with_name_cons]
      cases hrest : last_with_name nm rest with
      | some g => rfl
      | none =>
        by_cases hk : nm = f.name
        · subst hk
          rw [FS.entryAt_setTarget_self]
          rw [if_pos rfl]
        · rw [FS.entryAt_setTarget_ne fs f.name nm (staged_entry cm f) hk]
          rw [if_neg fun he => hk he.symm]
    · rw [h4, toFinset_keys_setTarget]
      simp [Finset.union_insert, Finset.insert_union]

/-! ### C10 — recursive enumeration, flat staging, duplicate base names collide -/

/-- C10: `prepare_dataset` enumerates source files recursively but stages each
under its base name in the flat target directory.  Starting from an empty
target directory (with, in link mode, all enumerated paths live), the run
returns `True`; the entry finally stored under each base name comes from the
LAST enumerated file with that name — a later file with a duplicate base name
replaces the earlier one's copy or link; the staged directory holds exactly
one entry per distinct base name; and whenever two distinct enumerated files
share a base name the staged directory holds strictly fewer entries than the
matched source set. -/
theorem prepare_dataset_flat_staging
    (fs : FS) (src : String) (listing : List SrcFile) (method : String) (cm : Bool)
    (htarget : fs.target = [])
    (hsrc : fs.dirs.contains src = true)
    (hne : (get_image_files listing).isEmpty = false)
    (hlive : cm = false → ∀ f ∈ get_image_files listing, f.path ∈ fs.liveFiles) :
    (prepare_dataset fs src listing method cm).2 = some true ∧
    (∀ nm, (prepare_dataset fs src listing method cm).1.entryAt nm =
      (last_with_name nm (get_image_files listing)).map (staged_entry cm)) ∧
    (prepare_dataset fs src listing method cm).1.target.length =
      ((get_image_files listing).map SrcFile.name).toFinset.card ∧
    (∀ f g, f ∈ get_image_files listing → g ∈ get_image_files listing →
      f ≠ g → f.name = g.name →
      (prepare_dataset fs src listing method cm).1.target.length <
        (get_image_files listing).length) := by
  obtain ⟨fdirs, flive, ftgt⟩ := fs
  change ftgt = [] at htarget
  subst htarget
  have hsrc₁ : ((if fdirs.contains ("images/" ++ method) = true then fdirs
      else ("images/" ++ method) :: fdirs).contains src) = true := by
    split
    · exact hsrc
    · rw [List.contains_cons, hsrc, Bool.or_true]
  have hspec := stage_files_spec cm (get_image_files listing)
    { dirs := if fdirs.contains ("images/" ++ method) = true then fdirs
              else ("images/" ++ method) :: fdirs,
      liveFiles := flive, target := [] }
    (by
      intro nm e he
      simp [FS.entryAt] at he)
    (by simp)
    (fun hcm f hf => hlive hcm f hf)
  obtain ⟨h1, h2, h3, h4⟩ := hspec
  have hprep : prepare_dataset ⟨fdirs, flive, []⟩ src listing method cm =
      ((stage_files cm
        { dirs := if fdirs.contains ("images/" ++ method) = true then fdirs
                  else ("images/" ++ method) :: fdirs,
          liveFiles := flive, target := [] }
        (get_image_files listing)).1, some true) := by
    simp only [prepare_dataset]
    rw [if_neg (fun hc => by rw [hsrc₁] at hc; exact Bool.noConfusion hc),
      if_neg (fun hc => by rw [hne] at hc; exact Bool.noConfusion hc)]
    cases hst : stage_files cm
        { dirs := if fdirs.contains ("images/" ++ method) = true then fdirs
                  else ("images/" ++ method) :: fdirs,
          liveFiles := flive, target := [] }
        (get_image_files listing) with
    | mk fs₂ e =>
      rw [hst] at h1
      cases e with
      | none => rfl
      | some err => cases h1
  have hlen : (prepare_dataset ⟨fdirs, flive, []⟩ src listing method cm).1.target.length =
      ((get_image_files listing).map SrcFile.name).toFinset.card := by
    rw [hprep]
    have hcount := List.toFinset_card_of_nodup h3
    rw [h4] at hcount
    simp only [List.map_nil, List.toFinset_nil, Finset.union_empty] at hcount
    calc ((stage_files cm
            { dirs := if fdirs.contains ("images/" ++ method) = true then fdirs
                      else ("images/" ++ method) :: fdirs,
              liveFiles := flive, target := [] }
            (get_image_files listing)).1, some true).1.target.length
        = (List.map Prod.fst (stage_files cm
            { dirs := if fdirs.contains ("images/" ++ method) = true then fdirs
                      else ("images/" ++ method) :: fdirs,
              liveFiles := flive, target := [] }
            (get_image_files listing)).1.target).length := (List.length_map _ _).symm
      _ = ((get_image_files listing).map SrcFile.name).toFinset.card := hcount.symm
  refine ⟨by rw [hprep], fun nm => ?_, hlen, ?_⟩
  · rw [hprep]
    rw [h2 nm]
    cases last_with_name nm (get_image_files listing) with
    | some g => rfl
    | none => simp [FS.entryAt]
  · intro f g hf hg hfg hnm
    have hnn : ¬((get_image_files listing).map SrcFile.name).Nodup := by
      intro hnd
      exact hfg (List.inj_on_of_nodup_map hnd hf hg hnm)
    have hle : ((get_image_files listing).map SrcFile.name).toFinset.card ≤
        ((get_image_files listing).map SrcFile.name).length := List.toFinset_card_le _
    have hneq : ((get_image_files listing).map SrcFile.name).toFinset.card ≠
        ((get_image_files listing).map SrcFile.name).length := by
      intro heq
      exact hnn (Multiset.toFinset_card_eq_card_iff_nodup.mp heq)
    rw [hlen]
    calc ((get_image_files listing).map SrcFile.name).toFinset.card
        < ((get_image_files listing).map SrcFile.name).length := lt_of_le_of_ne hle hneq
      _ = (get_image_files listing).length := List.length_map _ _

/-- Witness for `prepare_dataset_flat_staging`: two source files `a/x.jpg`
and `b/x.jpg` (the second matched through its upper-case suffix) collide on
the base name `x.jpg`; staging succeeds, the surviving link points at the
later file, and the target holds one entry for two matched sources. -/
theorem prepare_dataset_flat_staging_witness :
    (prepare_dataset ⟨["srcdir"], ["srcdir/a/x.jpg", "srcdir/b/x.jpg"], []⟩ "srcdir"
        [⟨"srcdir/a/x.jpg", "x.jpg", ".jpg", true⟩, ⟨"srcdir/b/x.jpg", "x.jpg", ".JPG", true⟩]
        "m" false).2 = some true ∧
    (prepare_dataset ⟨["srcdir"], ["srcdir/a/x.jpg", "srcdir/b/x.jpg"], []⟩ "srcdir"
        [⟨"srcdir/a/x.jpg", "x.jpg", ".jpg", true⟩, ⟨"srcdir/b/x.jpg", "x.jpg", ".JPG", true⟩]
        "m" false).1.entryAt "x.jpg" = some (Entry.symlink "srcdir/b/x.jpg") ∧
    (prepare_dataset ⟨["srcdir"], ["srcdir/a/x.jpg", "srcdir/b/x.jpg"], []⟩ "srcdir"
        [⟨"srcdir/a/x.jpg", "x.jpg", ".jpg", true⟩, ⟨"srcdir/b/x.jpg", "x.jpg", ".JPG", true⟩]
        "m" false).1.target.length <
      (get_image_files
        [⟨"srcdir/a/x.jpg", "x.jpg", ".jpg", true⟩,
         ⟨"srcdir/b/x.jpg", "x.jpg", ".JPG", true⟩]).length := by
  have h := prepare_dataset_flat_staging
    ⟨["srcdir"], ["srcdir/a/x.jpg", "srcdir/b/x.jpg"], []⟩ "srcdir"
    [⟨"srcdir/a/x.jpg", "x.jpg", ".jpg", true⟩, ⟨"srcdir/b/x.jpg", "x.jpg", ".JPG", true⟩]
    "m" false rfl (by decide) (by decide) (by decide)
  refine ⟨h.1, ?_, ?_⟩
  · rw [h.2.1 "x.jpg"]
    rfl
  · exact h.2.2.2 ⟨"srcdir/a/x.jpg", "x.jpg", ".jpg", true⟩
      ⟨"srcdir/b/x.jpg", "x.jpg", ".JPG", true⟩ (by decide) (by decide) (by decide) rfl

end MetricsViz
